import Mathlib

/-!
Verification of the GitSub problem-extraction pipeline.

This file shallowly embeds the pure, decidable parts of the repository's
extraction pipeline (`src/lib/parsers/*.ts`, `src/lib/utils/url-normalize.ts`)
into Lean and proves or refutes the specification's claims about them.

Strings are modelled as `List Char` internally (with `String` wrappers at the
boundaries).  JavaScript regular-expression operations used by the code are
modelled by explicit scanning functions that mirror the engine's leftmost-match
and greedy-quantifier behaviour; the relevant backtracking is analysed in the
comments next to each definition.  Whitespace (`\s`) is modelled over its ASCII
subset, which is the only part the claims exercise.
-/

namespace GitSub

/-! ## Basic character and list utilities -/

/-- ASCII model of JavaScript's `\s` character class and of the characters
removed by `String.prototype.trim`. -/
def isWsChar (c : Char) : Bool :=
  c = ' ' || c = '\t' || c = '\n' || c = '\r'

/-- `hasPref pat s` is true when `pat` occurs at the start of `s`
(model of anchored regex literal matching). -/
def hasPref : List Char → List Char → Bool
  | [], _ => true
  | _ :: _, [] => false
  | p :: ps, c :: cs => p = c && hasPref ps cs

/-- `hasSubL pat s`: `pat` occurs somewhere in `s`
(model of JavaScript `String.prototype.includes`). -/
def hasSubL (pat : List Char) : List Char → Bool
  | [] => hasPref pat []
  | c :: cs => hasPref pat (c :: cs) || hasSubL pat cs

/-- `endsWithL suf s`: `suf` occurs at the end of `s`. -/
def endsWithL (suf s : List Char) : Bool :=
  hasPref suf.reverse s.reverse

/-- Model of `String.prototype.trim` on character lists. -/
def trimL (s : List Char) : List Char :=
  ((s.dropWhile isWsChar).reverse.dropWhile isWsChar).reverse

/-- Model of `String.prototype.trim`. -/
def jsTrim (s : String) : String :=
  ⟨trimL s.data⟩

/-- Model of `.replace(/\/+$/, '')`: remove all trailing slashes. -/
def remTrailSlashes (l : List Char) : List Char :=
  (l.reverse.dropWhile (fun c => c = '/')).reverse

/-! ### Generic lemmas about these utilities -/

theorem hasPref_append (l r : List Char) : hasPref l (l ++ r) = true := by
  induction l with
  | nil => rfl
  | cons c cs ih => simp [hasPref, ih]

theorem hasPref_nil_right (p : List Char) :
    hasPref p [] = true ↔ p = [] := by
  cases p <;> simp [hasPref]

/-- Head-failure condition used for `takeWhile`/`dropWhile` computations:
either the list is empty or its head falsifies `p`. -/
def headFails (p : Char → Bool) : List Char → Prop
  | [] => True
  | c :: _ => p c = false

theorem takeWhile_append_of (p : Char → Bool) (l r : List Char)
    (hl : ∀ c ∈ l, p c = true) (hr : headFails p r) :
    (l ++ r).takeWhile p = l := by
  induction l with
  | nil =>
    cases r with
    | nil => rfl
    | cons c cs => simp [List.takeWhile, headFails] at hr ⊢; simp [hr]
  | cons c cs ih =>
    have hc : p c = true := hl c (by simp)
    simp [List.takeWhile, hc]
    exact ih (fun x hx => hl x (by simp [hx]))

theorem dropWhile_append_of (p : Char → Bool) (l r : List Char)
    (hl : ∀ c ∈ l, p c = true) (hr : headFails p r) :
    (l ++ r).dropWhile p = r := by
  induction l with
  | nil =>
    cases r with
    | nil => rfl
    | cons c cs => simp [List.dropWhile, headFails] at hr ⊢; simp [hr]
  | cons c cs ih =>
    have hc : p c = true := hl c (by simp)
    simp [List.dropWhile, hc]
    exact ih (fun x hx => hl x (by simp [hx]))

theorem headFails_dropWhile (p : Char → Bool) (l : List Char) :
    headFails p (l.dropWhile p) := by
  induction l with
  | nil => trivial
  | cons x xs ih =>
    cases hx : p x with
    | true => simpa [List.dropWhile, hx] using ih
    | false => simp [List.dropWhile, hx, headFails]

theorem dropWhile_idem (p : Char → Bool) (l : List Char) :
    (l.dropWhile p).dropWhile p = l.dropWhile p := by
  have h := headFails_dropWhile p l
  cases hd : l.dropWhile p with
  | nil => rfl
  | cons c cs =>
    rw [hd] at h
    simp only [headFails] at h
    simp [List.dropWhile, h]

/-! ## URL model (`src/lib/utils/url-normalize.ts`)

The code manipulates URLs through the WHATWG `URL` object: it reads and
writes `pathname`, reads `hostname`, clears `search` and `hash`, and
serializes with `toString()`.  We model the hierarchical
`scheme://host/path?search#hash` structure this code traffics in: parsing
splits the string at the delimiting characters and serializing concatenates
the components back (`search` retains its leading `?`, `hash` its `#`).
Parse failure is modelled by `Option`, matching the `try`/`catch` around
`new URL`. -/

structure URLModel where
  scheme : List Char
  host : List Char
  path : List Char
  search : List Char
  hash : List Char
  deriving DecidableEq, Repr

/-- A character allowed in the scheme component. -/
def isSchemeChar (c : Char) : Bool :=
  ('a' ≤ c && c ≤ 'z') || ('A' ≤ c && c ≤ 'Z')

/-- A character that does not terminate the host component. -/
def isHostChar (c : Char) : Bool :=
  !(c = '/' || c = '?' || c = '#')

/-- A character that does not terminate the path component. -/
def isPathChar (c : Char) : Bool :=
  !(c = '?' || c = '#')

/-- ASCII lowercase mapping (WHATWG host parsing lowercases domains, and the
case folding of a `/i` regex is modelled with it too; the literals involved
are ASCII-only). -/
def toLowerAscii (c : Char) : Char :=
  if 'A' ≤ c && c ≤ 'Z' then Char.ofNat (c.toNat + 32) else c

/-- Model of `new URL(url)` for hierarchical URLs:
`scheme://host[path][?search][#hash]`.  As in the WHATWG parser, the host is
lowercased; the other components are kept verbatim. -/
def parseURLChars (s : List Char) : Option URLModel :=
  let sch := s.takeWhile isSchemeChar
  if sch = [] then none
  else
    match s.dropWhile isSchemeChar with
    | ':' :: '/' :: '/' :: r =>
      let host := (r.takeWhile isHostChar).map toLowerAscii
      if host = [] then none
      else
        let r2 := r.dropWhile isHostChar
        let path := r2.takeWhile isPathChar
        let r3 := r2.dropWhile isPathChar
        let search := r3.takeWhile (fun c => !(c = '#'))
        let hash := r3.dropWhile (fun c => !(c = '#'))
        some ⟨sch, host, path, search, hash⟩
    | _ => none

/-- Model of `URL.prototype.toString`. -/
def serializeURL (o : URLModel) : List Char :=
  o.scheme ++ ':' :: '/' :: '/' :: (o.host ++ o.path ++ o.search ++ o.hash)

/-- Model of `.replace(/\/description\/?$/, '')` (the LeetCode-specific
normalization): drop a final `/description` or `/description/`.  The regex is
anchored at the end, so it removes exactly one such suffix per call. -/
def stripDescSuffix (l : List Char) : List Char :=
  if endsWithL "/description/".data l then l.take (l.length - 13)
  else if endsWithL "/description".data l then l.take (l.length - 12)
  else l

/-- First two pathname rewrites of `normalizeUrl`: strip trailing slashes,
then the LeetCode `/description` suffix when the hostname contains
`leetcode.com`.  `host` is the parser's output, already lowercased like the
real `urlObj.hostname` that `.includes` runs on. -/
def normPathLC (host path : List Char) : List Char :=
  if hasSubL "leetcode.com".data host then stripDescSuffix (remTrailSlashes path)
  else remTrailSlashes path

/-- The pathname rewriting performed by `normalizeUrl` (lines 7-19 of
`url-normalize.ts`): strip trailing slashes, then the LeetCode
`/description` suffix when the hostname contains `leetcode.com`, then (for
hostnames containing `atcoder.jp`) strip trailing slashes again. -/
def normPath (host path : List Char) : List Char :=
  if hasSubL "atcoder.jp".data host then remTrailSlashes (normPathLC host path)
  else normPathLC host path

/-- Model of `normalizeUrl` (`src/lib/utils/url-normalize.ts`): parse the URL,
rewrite its pathname via `normPath`, clear query and fragment, and serialize;
on parse failure return the input unchanged. -/
def normalizeUrlChars (s : List Char) : List Char :=
  match parseURLChars s with
  | none => s
  | some o => serializeURL ⟨o.scheme, o.host, normPath o.host o.path, [], []⟩

/-- `normalizeUrl` on `String`. -/
def normalizeUrl (s : String) : String :=
  ⟨normalizeUrlChars s.data⟩

/-! ### Well-formedness of parsed URLs and the serialize/parse round trip -/

theorem hasPref_singleton {c : Char} {s : List Char}
    (h : hasPref [c] s = true) : ∃ t, s = c :: t := by
  cases s with
  | nil => simp [hasPref] at h
  | cons d ds =>
    simp only [hasPref, Bool.and_eq_true, decide_eq_true_eq] at h
    exact ⟨ds, by rw [h.1]⟩

/-- The four supported source platforms (`Platform` in `src/lib/types.ts`). -/
inductive Platform where
  | codeforces
  | leetcode
  | atcoder
  | codechef
  deriving DecidableEq, Repr

/-- Model of `String.prototype.includes` on `String`. -/
def strIncludes (s pat : String) : Bool :=
  hasSubL pat.data s.data

/-- Model of `detectPlatform`: the four domain strings are tested as
substrings of the whole URL string (via `url.includes(...)`), in the fixed
order codeforces, leetcode, atcoder, codechef. -/
def detectPlatform (url : String) : Option Platform :=
  if strIncludes url "codeforces.com" then some Platform.codeforces
  else if strIncludes url "leetcode.com" then some Platform.leetcode
  else if strIncludes url "atcoder.jp" then some Platform.atcoder
  else if strIncludes url "codechef.com" then some Platform.codechef
  else none

/-- The observable outcome of `parseProblem`'s dispatch step: either the
"unsupported platform" error, or the invocation of one platform's extractor. -/
inductive DispatchOutcome where
  | unsupportedError
  | invoke (p : Platform)
  deriving DecidableEq, Repr

/-- Model of the dispatch logic of `parseProblem`: call `detectPlatform`;
if it returns null, throw "Unsupported platform" before invoking any
extractor; otherwise invoke the matching extractor. -/
def parseProblemDispatch (url : String) : DispatchOutcome :=
  match detectPlatform url with
  | none => DispatchOutcome.unsupportedError
  | some p => DispatchOutcome.invoke p

/-- Modelled from the spec: `detect` as the specification describes it,
matching each source's domain against the URL's *hostname* only (the
hostname is recovered with the URL parser model; an unparseable URL has no
hostname and matches nothing).  This definition follows the spec's words and
exists only to be compared with `detectPlatform`, which is translated from
the source. -/
def specHostnameDetect (url : String) : Option Platform :=
  match parseURLChars url.data with
  | none => none
  | some o =>
    if hasSubL "codeforces.com".data o.host then some Platform.codeforces
    else if hasSubL "leetcode.com".data o.host then some Platform.leetcode
    else if hasSubL "atcoder.jp".data o.host then some Platform.atcoder
    else if hasSubL "codechef.com".data o.host then some Platform.codechef
    else none

/-! ## Codeforces identifier extraction (`src/lib/parsers/codeforces.ts`) -/

/-- `c` is an ASCII decimal digit (regex `\d`). -/
def isDigitChar (c : Char) : Bool :=
  '0' ≤ c && c ≤ '9'

/-- `c` is an ASCII uppercase letter (regex `[A-Z]`). -/
def isUpperAZ (c : Char) : Bool :=
  'A' ≤ c && c ≤ 'Z'

/-- Attempt the regex `\/problem\/(\d+)\/([A-Z])` at the start of `s`.
`\d+` is greedy; because a shorter digit run would leave a digit where the
following literal `/` is required, the maximal run is the only viable one,
so no backtracking case arises. -/
def cfTryAt (s : List Char) : Option (List Char × Char) :=
  if hasPref "/problem/".data s then
    let t := s.drop 9
    let ds := t.takeWhile isDigitChar
    if ds = [] then none
    else
      match t.dropWhile isDigitChar with
      | '/' :: c :: _ => if isUpperAZ c then some (ds, c) else none
      | _ => none
  else none

/-- Leftmost match of `\/problem\/(\d+)\/([A-Z])` (model of
`url.match(...)`): try each start position from the left. -/
def cfFind : List Char → Option (List Char × Char)
  | [] => none
  | c :: rest =>
    match cfTryAt (c :: rest) with
    | some r => some r
    | none => cfFind rest

/-- Model of lines 57-59 of `parseCodeforces`: the problem id is
`{digits}{letter}` when the URL matches, and the empty string otherwise. -/
def parseCodeforcesProblemId (url : String) : String :=
  match cfFind url.data with
  | some (ds, c) => ⟨ds ++ [c]⟩
  | none => ""

/-- Model of line 62 of `parseCodeforces`: `id = codeforces-{problemId}`. -/
def parseCodeforcesId (url : String) : String :=
  "codeforces-" ++ parseCodeforcesProblemId url

/-- The `platform` field set by `parseCodeforces` (line 68). -/
def parseCodeforcesPlatform : Platform := Platform.codeforces

/-! ## Per-extractor URL patterns and the first observable action (claim C2)

Each extractor is an async function whose effects begin with either a URL
pattern check (throwing an invalid-URL error) or network I/O (an HTTP fetch
or a browser navigation).  `FirstAction` records which of the two a given
extractor performs first on a given URL; it is read off the order of
statements in each extractor's source. -/

/-- The error kinds distinguished by the pipeline. -/
inductive ExtractErr where
  | invalidUrl
  | extractionFailed
  | sourceNotFound
  | unsupportedPlatform
  deriving DecidableEq, Repr

/-- The first observable effect of an extractor invocation. -/
inductive FirstAction where
  | fail (e : ExtractErr)
  | network
  deriving DecidableEq, Repr

/-- Case-insensitive literal prefix test: `pat` is a lowercase literal. -/
def hasPrefCI : List Char → List Char → Bool
  | [], _ => true
  | _ :: _, [] => false
  | p :: ps, c :: cs => p = toLowerAscii c && hasPrefCI ps cs

/-- Character class `[a-z0-9]` of a `/i` regex. -/
def isAlnumCI (c : Char) : Bool :=
  ('a' ≤ toLowerAscii c && toLowerAscii c ≤ 'z') || isDigitChar c

/-- Character class `[a-z0-9_]` of a `/i` regex. -/
def isAlnumUCI (c : Char) : Bool :=
  isAlnumCI c || c = '_'

/-- Attempt `\/contests\/([a-z0-9]+)\/tasks\/([a-z0-9_]+)` (flag `i`) at the
start of `s` (from `parseAtcoder`, line 129).  Both quantifiers are greedy;
shortening the first run would leave an alphanumeric character where the
literal `/` of `/tasks/` is required, so the maximal run is the only viable
one and no backtracking case arises. -/
def atcoderTryAt (s : List Char) : Option (List Char × List Char) :=
  if hasPrefCI "/contests/".data s then
    let t := s.drop 10
    let contest := t.takeWhile isAlnumCI
    if contest = [] then none
    else
      let t2 := t.dropWhile isAlnumCI
      if hasPrefCI "/tasks/".data t2 then
        let task := (t2.drop 7).takeWhile isAlnumUCI
        if task = [] then none else some (contest, task)
      else none
  else none

/-- Leftmost match for the AtCoder URL pattern. -/
def atcoderFind : List Char → Option (List Char × List Char)
  | [] => none
  | c :: rest =>
    match atcoderTryAt (c :: rest) with
    | some r => some r
    | none => atcoderFind rest

/-- Model of lines 129-136 of `parseAtcoder`: the `(contestId, taskId)`
captured from the URL, or `none` when the pattern does not match. -/
def atcoderUrlMatch (url : String) : Option (String × String) :=
  match atcoderFind url.data with
  | some (contest, task) => some (⟨contest⟩, ⟨task⟩)
  | none => none

/-- Model of line 21 of the LeetCode extractor:
`url.replace(/\/description\/?$/, '')`. -/
def leetcodeNormalize (url : String) : String :=
  ⟨stripDescSuffix url.data⟩

/-- Attempt `\/problems\/([^\/\?]+)` at the start of `s`. -/
def slugTryAt (s : List Char) : Option (List Char) :=
  if hasPref "/problems/".data s then
    let slug := (s.drop 10).takeWhile (fun c => !(c = '/' || c = '?'))
    if slug = [] then none else some slug
  else none

/-- Leftmost match for `\/problems\/([^\/\?]+)` (LeetCode slug, line 25 of
the LeetCode extractor). -/
def slugFind : List Char → Option (List Char)
  | [] => none
  | c :: rest =>
    match slugTryAt (c :: rest) with
    | some r => some r
    | none => slugFind rest

/-- Attempt `problems\/([^\/\?]+)` (no leading slash — the CodeChef variant,
line 143 of `parseCodechef`) at the start of `s`. -/
def ccProblemTryAt (s : List Char) : Option (List Char) :=
  if hasPref "problems/".data s then
    let slug := (s.drop 9).takeWhile (fun c => !(c = '/' || c = '?'))
    if slug = [] then none else some slug
  else none

/-- Leftmost match for `problems\/([^\/\?]+)`. -/
def ccProblemFind : List Char → Option (List Char)
  | [] => none
  | c :: rest =>
    match ccProblemTryAt (c :: rest) with
    | some r => some r
    | none => ccProblemFind rest

/-- Model of lines 142-144 of `parseCodechef`: problem id from the URL, or
`""` when the pattern does not match. -/
def codechefProblemId (url : String) : String :=
  match ccProblemFind url.data with
  | some slug => ⟨slug⟩
  | none => ""

/-- First action of `parseAtcoder` (lines 124-147): the URL pattern is
checked and an invalid-URL error thrown *before* `withBrowserContext` /
`page.goto`. -/
def parseAtcoderFirstAction (url : String) : FirstAction :=
  if (atcoderUrlMatch url).isSome then FirstAction.network
  else FirstAction.fail ExtractErr.invalidUrl

/-- First action of the LeetCode extractor (lines 19-59): the slug pattern is
checked against the `/description`-stripped URL and an invalid-URL error
thrown *before* the GraphQL `fetch`. -/
def parseLeetcodeFirstAction (url : String) : FirstAction :=
  if (slugFind (leetcodeNormalize url).data).isSome then FirstAction.network
  else FirstAction.fail ExtractErr.invalidUrl

/-- First action of `parseCodeforces` (lines 5-8): the very first statement
is `await fetchWithHeaders(url)` — there is no URL-format check before
network I/O, for any input URL. -/
def parseCodeforcesFirstAction (_url : String) : FirstAction :=
  FirstAction.network

/-- First action of `parseCodechef` (lines 4-10): the browser is launched and
`page.goto(url)` runs before any URL pattern is consulted (the problem-id
match only happens at line 143, after extraction). -/
def parseCodechefFirstAction (_url : String) : FirstAction :=
  FirstAction.network

/-! ## The unified record and the extractors' assembly phases (claims C1, C3, C4)

`ProblemMetadata` (in `src/lib/types.ts`) carries the fields below plus
extraction timestamps (`createdAt`/`updatedAt`, produced impurely from the
clock) and optional per-source extras; the fields the claims speak about are
modelled.  Each extractor's selector cascade produces a handful of strings
(title candidates, description candidates, sample-test block texts); the
assembly-phase models below take those strings as parameters and perform
exactly the validations, fallbacks and record construction the source does
after the cascade. -/

structure SamplePair where
  input : String
  output : String
  deriving DecidableEq, Repr

structure ProblemRecord where
  id : String
  platform : Platform
  problemId : String
  title : String
  description : String
  sampleTests : List SamplePair
  difficulty : String
  tags : List String
  url : String
  deriving DecidableEq, Repr

/-- JavaScript `a || b` on strings: the empty string is falsy. -/
def jsOr (a b : String) : String :=
  if a = "" then b else a

/-- Model of lines 40-46 of `parseCodeforces`: for each `.sample-test`
element, trim the `.input pre` and `.output pre` texts and keep the pair
only when both are non-empty. -/
def cfExtractSamples (blocks : List (String × String)) : List SamplePair :=
  blocks.filterMap (fun b =>
    let i := jsTrim b.1
    let o := jsTrim b.2
    if i ≠ "" ∧ o ≠ "" then some ⟨i, o⟩ else none)

/-- Model of `parseCodeforces` after the fetch (lines 11-79).
`psFound` is `$('.problem-statement').length > 0`; `title1`-`title3` are the
three title selector results (trimmed), `desc1`/`desc2` the two description
selector results, `psHtml` the fallback `problemStatement.html()`;
`sampleBlocks` the `.sample-test` input/output texts. -/
def parseCodeforcesExtract (url : String) (psFound : Bool)
    (title1 title2 title3 desc1 desc2 psHtml : String)
    (sampleBlocks : List (String × String)) (tags : List String) :
    Except ExtractErr ProblemRecord :=
  if !psFound then Except.error ExtractErr.extractionFailed
  else
    let title := jsOr (jsOr (jsOr title1 title2) title3) "Untitled Problem"
    let description := jsOr (jsOr desc1 desc2) psHtml
    Except.ok
      { id := parseCodeforcesId url
        platform := Platform.codeforces
        problemId := parseCodeforcesProblemId url
        title := title
        description := jsOr description psHtml
        sampleTests := cfExtractSamples sampleBlocks
        difficulty := ""
        tags := tags
        url := url }

/-- Model of the assembly phase of `parseAtcoder` (lines 460-477): whatever
the cascade produced — even empty strings for both title and description —
the extractor returns a record; the title falls back to
`AtCoder Problem {taskId}` and the description to `''`.  There is no
"content extraction failed" check anywhere in `parseAtcoder`. -/
def parseAtcoderAssemble (url contestId taskId title description : String)
    (samples : List SamplePair) (difficulty : String) (tags : List String) :
    Except ExtractErr ProblemRecord :=
  Except.ok
    { id := "atcoder-" ++ (contestId ++ "-" ++ taskId)
      platform := Platform.atcoder
      problemId := contestId ++ "-" ++ taskId
      title := jsOr title ("AtCoder Problem " ++ taskId)
      description := jsOr description ""
      sampleTests := samples
      difficulty := difficulty
      tags := tags
      url := url }

/-- Model of the validation and assembly phase of `parseCodechef`
(lines 137-165): throw a content-extraction error when both title and
description are empty, then an id error when the URL carries no problem id,
otherwise build the record with placeholder fallbacks. -/
def parseCodechefExtract (url title description : String)
    (samples : List SamplePair) (difficulty : String) (tags : List String) :
    Except ExtractErr ProblemRecord :=
  if title = "" ∧ description = "" then Except.error ExtractErr.extractionFailed
  else if codechefProblemId url = "" then Except.error ExtractErr.invalidUrl
  else
    Except.ok
      { id := "codechef-" ++ codechefProblemId url
        platform := Platform.codechef
        problemId := codechefProblemId url
        title := jsOr title ("CodeChef Problem " ++ codechefProblemId url)
        description := jsOr description "<p>Problem description could not be extracted.</p>"
        sampleTests := samples
        difficulty := difficulty
        tags := tags
        url := url }

/-! ## CodeChef sample-test recovery (claim C4, lines 67-98 of `parseCodechef`) -/

/-- ASCII lowercase of a string (model of `toLowerCase` for the ASCII labels
involved). -/
def strLower (s : String) : String :=
  ⟨s.data.map toLowerAscii⟩

/-- Model of lines 70-80 of `parseCodechef` (strategy 1): for each DOM
section matching `[class*="input"], [class*="output"], [class*="sample"]`,
if it contains at least two `pre` tags, push the trimmed texts of the first
two as an input/output pair — with **no** emptiness check. -/
def ccSectionSamples (sections : List (List String)) : List SamplePair :=
  sections.filterMap (fun pres =>
    match pres with
    | p0 :: p1 :: _ => some ⟨jsTrim p0, jsTrim p1⟩
    | _ => none)

/-- Model of lines 83-98 of `parseCodechef` (strategy 2): walk adjacent `pre`
tags (each given with its preceding sibling's text) and pair consecutive ones
whose labels mention input/sample and output/sample, skipping the consumed
element. -/
def ccAdjacentSamples : List (String × String) → List SamplePair
  | (l0, t0) :: (l1, t1) :: rest =>
    if (strIncludes (strLower l0) "input" || strIncludes (strLower l0) "sample") &&
       (strIncludes (strLower l1) "output" || strIncludes (strLower l1) "sample") then
      ⟨jsTrim t0, jsTrim t1⟩ :: ccAdjacentSamples rest
    else
      ccAdjacentSamples ((l1, t1) :: rest)
  | _ => []

/-- Model of the full sample-recovery of `parseCodechef`: strategy 1, then
strategy 2 only when strategy 1 found nothing. -/
def parseCodechefSamples (sections : List (List String))
    (adjacent : List (String × String)) : List SamplePair :=
  let s1 := ccSectionSamples sections
  if s1 = [] then ccAdjacentSamples adjacent else s1

/-! ## Math-markup cleanup (`cleanLatexText`, `src/lib/parsers/atcoder.ts` 10-18)

`text.replace(/\$\$\$([^$]+)\$\$\$/g, '$$$1$$')` rewrites each matched
segment `$$$content$$$` (content non-empty, no `$`) to `$content$` (in the
replacement string `$$` denotes a literal dollar and `$1` the captured
group).  The global scan is modelled with an explicit fuel argument (one
unit per inspected position) so that the function is structurally recursive
and kernel-evaluable; `fuel = length of the input` always suffices. -/

def replTripleF : Nat → List Char → List Char
  | 0, s => s
  | _ + 1, [] => []
  | fuel + 1, c :: rest =>
    if hasPref "$$$".data (c :: rest) then
      let t := (c :: rest).drop 3
      let cont := t.takeWhile (fun x => !(x = '$'))
      let r2 := t.dropWhile (fun x => !(x = '$'))
      if cont ≠ [] ∧ hasPref "$$$".data r2 then
        '$' :: (cont ++ '$' :: replTripleF fuel (r2.drop 3))
      else c :: replTripleF fuel rest
    else c :: replTripleF fuel rest

/-- Model of the `$$$…$$$ → $…$` global replace. -/
def replTriple (s : List Char) : List Char :=
  replTripleF s.length s

/-- Model of `.replace(/\s+/g, ' ')`: each maximal whitespace run becomes a
single space.  The flag records whether the previous character was part of a
whitespace run. -/
def collapseWsAux : Bool → List Char → List Char
  | _, [] => []
  | prevWs, c :: rest =>
    if isWsChar c then
      if prevWs then collapseWsAux true rest
      else ' ' :: collapseWsAux true rest
    else c :: collapseWsAux false rest

def collapseWs (l : List Char) : List Char :=
  collapseWsAux false l

/-- Model of `cleanLatexText`: collapse `$$$…$$$` to `$…$`, then collapse
whitespace runs and trim. -/
def cleanLatexText (s : String) : String :=
  ⟨trimL (collapseWs (replTriple s.data))⟩

/-! ## Browser session manager (claim C9, `src/lib/parsers/browser-manager.ts`)

`BrowserManager.getBrowser` runs on a single-threaded event loop; its
synchronous prologue (check `initPromise`, check `browser`, otherwise assign
`initPromise = this.launchBrowser()`) contains no `await` and is therefore
atomic.  The model below is a state machine whose events are that atomic
prologue (`acquire`), the completion or failure of the in-flight launch (the
continuation after `await this.initPromise`, which assigns `browser` and
clears `initPromise` — also an atomic step), the browser `disconnected`
handler, and `close()`. -/

structure BMState where
  browser : Bool
  launching : Bool
  launchesStarted : Nat
  deriving DecidableEq, Repr

inductive BMEvent where
  | acquire
  | launchDone
  | launchFailed
  | disconnected
  | closeCall
  deriving DecidableEq, Repr

/-- What a caller of `getBrowser` observes from the prologue. -/
inductive AcqResult where
  | awaitedExisting
  | cachedBrowser
  | startedLaunch
  deriving DecidableEq, Repr

/-- One atomic step of the browser manager, from the source of `getBrowser`
(lines 76-96), the `disconnected` handler (162-166) and `close()` (257-273). -/
def bmStep (s : BMState) : BMEvent → BMState × Option AcqResult
  | BMEvent.acquire =>
    if s.launching then (s, some AcqResult.awaitedExisting)
    else if s.browser then (s, some AcqResult.cachedBrowser)
    else ({ s with launching := true, launchesStarted := s.launchesStarted + 1 },
          some AcqResult.startedLaunch)
  | BMEvent.launchDone =>
    if s.launching then ({ s with browser := true, launching := false }, none)
    else (s, none)
  | BMEvent.launchFailed =>
    if s.launching then ({ s with launching := false }, none)
    else (s, none)
  | BMEvent.disconnected =>
    ({ s with browser := false, launching := false }, none)
  | BMEvent.closeCall =>
    if s.browser then ({ s with browser := false, launching := false }, none)
    else (s, none)

/-- The manager's initial state: no browser, no launch in flight. -/
def bmInit : BMState :=
  { browser := false, launching := false, launchesStarted := 0 }

/-- Run a sequence of events. -/
def bmRun : BMState → List BMEvent → BMState
  | s, [] => s
  | s, e :: es => bmRun (bmStep s e).1 es

/-- Number of live browser processes represented by a state: one in-flight
launch plus one connected browser would be two processes. -/
def bmLive (s : BMState) : Nat :=
  (if s.browser then 1 else 0) + (if s.launching then 1 else 0)

/-! ## `withBrowserContext` (claim C10, lines 280-289 of `browser-manager.ts`)

The callback's behaviour is abstracted to its outcome (`Except E A`, an
error modelling a thrown exception); the browsing-context bookkeeping is an
explicit state.  `context.close()` does not throw in this model, matching
the claim's scope. -/

structure CtxState where
  nextId : Nat
  openCtxs : List Nat
  deriving DecidableEq, Repr

/-- Model of `browserManager.createContext()`: allocate a fresh isolated
context and record it as open. -/
def createContext (st : CtxState) : CtxState × Nat :=
  ({ nextId := st.nextId + 1, openCtxs := st.nextId :: st.openCtxs }, st.nextId)

/-- Model of `context.close()`. -/
def closeContext (c : Nat) (st : CtxState) : CtxState :=
  { st with openCtxs := st.openCtxs.filter (fun x => x ≠ c) }

/-- `try { return await fn(context) } finally { await context.close() }`:
the close runs on both the return path and the throw path, and the body's
outcome is passed through unchanged. -/
def tryFinallyClose {E A : Type} (body : Except E A) (c : Nat) (st : CtxState) :
    CtxState × Except E A :=
  (closeContext c st, body)

/-- Model of `withBrowserContext`. -/
def withBrowserContext {E A : Type} (fn : Nat → Except E A) (st : CtxState) :
    CtxState × Except E A :=
  let p := createContext st
  tryFinallyClose (fn p.2) p.2 p.1

/-! ### Lemmas about the `$$$ → $` rewrite -/

theorem replTripleF_nil (f : Nat) : replTripleF f [] = [] := by
  cases f <;> rfl

theorem length_dropWhile_le (p : Char → Bool) (l : List Char) :
    (l.dropWhile p).length ≤ l.length :=
  (List.dropWhile_sublist p).length_le

theorem replTripleF_fuel (f1 : Nat) : ∀ (f2 : Nat) (s : List Char),
    s.length ≤ f1 → s.length ≤ f2 → replTripleF f1 s = replTripleF f2 s := by
  induction f1 with
  | zero =>
    intro f2 s h1 _
    have hs : s = [] := List.eq_nil_of_length_eq_zero (Nat.le_zero.mp h1)
    subst hs
    rw [replTripleF_nil, replTripleF_nil]
  | succ g ih =>
    intro f2 s h1 h2
    cases s with
    | nil => rw [replTripleF_nil, replTripleF_nil]
    | cons c rest =>
      cases f2 with
      | zero => simp at h2
      | succ g2 =>
        simp only [replTripleF]
        have hlen : rest.length ≤ g := by
          simp only [List.length_cons] at h1; omega
        have hlen2 : rest.length ≤ g2 := by
          simp only [List.length_cons] at h2; omega
        cases hp : hasPref "$$$".data (c :: rest) with
        | true =>
          simp only [hp, if_true]
          by_cases hcond : ((c :: rest).drop 3).takeWhile (fun x => !(x = '$')) ≠ [] ∧
              hasPref "$$$".data (((c :: rest).drop 3).dropWhile (fun x => !(x = '$'))) = true
          · simp only [if_pos hcond]
            have hr2len : ((((c :: rest).drop 3).dropWhile (fun x => !(x = '$'))).drop 3).length ≤
                rest.length := by
              have ha := length_dropWhile_le (fun x => !(x = '$')) ((c :: rest).drop 3)
              simp only [List.length_drop, List.length_cons] at ha ⊢
              omega
            rw [ih g2 _ (le_trans hr2len hlen) (le_trans hr2len hlen2)]
          · simp only [if_neg hcond]
            rw [ih g2 rest hlen hlen2]
        | false =>
          simp only [hp, Bool.false_eq_true, if_false]
          rw [ih g2 rest hlen hlen2]

theorem replTripleF_wf : ∀ (a : List Char) (f : Nat) (b c : List Char),
    (∀ x ∈ a, ¬ x = '$') → (∀ x ∈ b, ¬ x = '$') → b ≠ [] →
    (a ++ (['$', '$', '$'] ++ (b ++ (['$', '$', '$'] ++ c)))).length ≤ f →
    replTripleF f (a ++ (['$', '$', '$'] ++ (b ++ (['$', '$', '$'] ++ c)))) =
      a ++ '$' :: (b ++ '$' :: replTripleF (f - (a.length + 1)) c) := by
  intro a
  induction a with
  | nil =>
    intro f b c _ hb hbne hf
    simp only [List.nil_append, List.length_append, List.length_cons] at hf ⊢
    cases f with
    | zero => omega
    | succ g =>
      show replTripleF (g + 1) ('$' :: '$' :: '$' :: (b ++ ('$' :: '$' :: '$' :: c))) = _
      simp only [replTripleF]
      have hp : hasPref "$$$".data ('$' :: '$' :: '$' :: (b ++ ('$' :: '$' :: '$' :: c))) =
          true := by simp [hasPref]
      rw [if_pos hp]
      have htake : (('$' :: '$' :: '$' :: (b ++ ('$' :: '$' :: '$' :: c))).drop 3).takeWhile
          (fun x => !(x = '$')) = b := by
        show (b ++ ('$' :: '$' :: '$' :: c)).takeWhile (fun x => !(x = '$')) = b
        exact takeWhile_append_of _ b _
          (fun x hx => by simp [hb x hx]) (by simp [headFails])
      have hdrop : (('$' :: '$' :: '$' :: (b ++ ('$' :: '$' :: '$' :: c))).drop 3).dropWhile
          (fun x => !(x = '$')) = '$' :: '$' :: '$' :: c := by
        show (b ++ ('$' :: '$' :: '$' :: c)).dropWhile (fun x => !(x = '$')) = _
        exact dropWhile_append_of _ b _
          (fun x hx => by simp [hb x hx]) (by simp [headFails])
      rw [htake, hdrop]
      have hcond : b ≠ [] ∧ hasPref "$$$".data ('$' :: '$' :: '$' :: c) = true :=
        ⟨hbne, by simp [hasPref]⟩
      rw [if_pos hcond]
      show '$' :: (b ++ '$' :: replTripleF g c) = '$' :: (b ++ '$' :: replTripleF (g + 1 - 1) c)
      simp
  | cons x a' ih =>
    intro f b c ha hb hbne hf
    have hx : ¬ x = '$' := ha x (by simp)
    cases f with
    | zero =>
      rw [List.cons_append] at hf
      simp only [List.length_cons] at hf
      omega
    | succ g =>
      have hf' : (a' ++ (['$', '$', '$'] ++ (b ++ (['$', '$', '$'] ++ c)))).length ≤ g := by
        rw [List.cons_append] at hf
        simp only [List.length_cons] at hf
        omega
      rw [List.cons_append]
      show replTripleF (g + 1)
        (x :: (a' ++ (['$', '$', '$'] ++ (b ++ (['$', '$', '$'] ++ c))))) = _
      simp only [replTripleF]
      have hp : hasPref "$$$".data
          (x :: (a' ++ (['$', '$', '$'] ++ (b ++ (['$', '$', '$'] ++ c))))) = false := by
        show (decide ('$' = x) && _) = false
        have hdx : decide ('$' = x) = false := by
          simp only [decide_eq_false_iff_not]
          exact fun h => hx h.symm
        rw [hdx, Bool.false_and]
      rw [hp]
      simp only [Bool.false_eq_true, if_false]
      rw [ih g b c (fun y hy => ha y (by simp [hy])) hb hbne hf']
      have harith : g - (a'.length + 1) = g + 1 - ((x :: a').length + 1) := by
        simp only [List.length_cons]
        omega
      rw [harith, List.cons_append]

theorem replTriple_wf (a b c : List Char)
    (ha : ∀ x ∈ a, ¬ x = '$') (hb : ∀ x ∈ b, ¬ x = '$') (hbne : b ≠ []) :
    replTriple (a ++ (['$', '$', '$'] ++ (b ++ (['$', '$', '$'] ++ c)))) =
      a ++ '$' :: (b ++ '$' :: replTriple c) := by
  unfold replTriple
  rw [replTripleF_wf a _ b c ha hb hbne (le_refl _)]
  have hge : c.length ≤
      (a ++ (['$', '$', '$'] ++ (b ++ (['$', '$', '$'] ++ c)))).length - (a.length + 1) := by
    simp [List.length_append]
    omega
  rw [replTripleF_fuel _ c.length c hge (le_refl _)]

/-! ### Lemmas about the browser-manager state machine -/

/-- The code's invariant: a connected browser and an in-flight launch never
coexist (the launch only starts when both `browser` and `initPromise` are
null, and completing the launch sets `browser` while clearing
`initPromise` in the same synchronous continuation). -/
def bmInv (s : BMState) : Prop :=
  ¬(s.browser = true ∧ s.launching = true)

theorem bmStep_inv (s : BMState) (e : BMEvent) (h : bmInv s) :
    bmInv (bmStep s e).1 := by
  unfold bmInv at h ⊢
  cases e with
  | acquire =>
    simp only [bmStep]
    by_cases hl : s.launching = true
    · rw [if_pos hl]; exact h
    · rw [if_neg hl]
      by_cases hb : s.browser = true
      · rw [if_pos hb]; exact h
      · rw [if_neg hb]
        intro hc
        exact hb hc.1
  | launchDone =>
    simp only [bmStep]
    by_cases hl : s.launching = true
    · rw [if_pos hl]; intro hc; simp at hc
    · rw [if_neg hl]; exact h
  | launchFailed =>
    simp only [bmStep]
    by_cases hl : s.launching = true
    · rw [if_pos hl]; intro hc; simp at hc
    · rw [if_neg hl]; exact h
  | disconnected =>
    simp only [bmStep]
    intro hc
    simp at hc
  | closeCall =>
    simp only [bmStep]
    by_cases hb : s.browser = true
    · rw [if_pos hb]; intro hc; simp at hc
    · rw [if_neg hb]; exact h

theorem bmRun_inv : ∀ (evs : List BMEvent) (s : BMState), bmInv s → bmInv (bmRun s evs) := by
  intro evs
  induction evs with
  | nil => intro s h; exact h
  | cons e es ih => intro s h; exact ih _ (bmStep_inv s e h)

theorem bmInv_live_le_one (s : BMState) (h : bmInv s) : bmLive s ≤ 1 := by
  unfold bmLive
  unfold bmInv at h
  cases hb : s.browser <;> cases hl : s.launching <;> simp_all

/-- A helper for the non-empty-title facts: `jsOr` with a non-empty fallback
is non-empty. -/
theorem jsOr_ne_empty (a b : String) (hb : b ≠ "") : jsOr a b ≠ "" := by
  unfold jsOr
  split
  · exact hb
  · assumption

instance {E A : Type} [DecidableEq E] [DecidableEq A] : DecidableEq (Except E A) :=
  fun x y =>
    match x, y with
    | Except.ok a, Except.ok b =>
      if h : a = b then isTrue (by rw [h]) else isFalse (fun hc => h (Except.ok.inj hc))
    | Except.error e, Except.error f =>
      if h : e = f then isTrue (by rw [h]) else isFalse (fun hc => h (Except.error.inj hc))
    | Except.ok _, Except.error _ => isFalse (fun hc => Except.noConfusion hc)
    | Except.error _, Except.ok _ => isFalse (fun hc => Except.noConfusion hc)

/-- Helper: a string append with a non-empty left part is non-empty. -/
theorem append_left_ne_empty (a b : String) (ha : a ≠ "") : a ++ b ≠ "" := by
  intro h
  have hd := congrArg String.data h
  rw [String.data_append] at hd
  have hnil : a.data = [] := (List.append_eq_nil.mp hd).1
  apply ha
  cases a with
  | mk d => cases hnil; rfl

/-! ## The claims -/

/-- C1: the Codeforces record id is a pure, deterministic function of the
source and the source problem id, of the form `{source}-{sourceProblemId}`;
two extractions of the same URL (more generally, of URLs carrying the same
problem id) produce equal ids, and the URL
`https://codeforces.com/problemset/problem/158/A` yields id
`codeforces-158A` with platform `codeforces`. -/
theorem claim_C1_codeforces_id :
    (∀ u : String, parseCodeforcesId u = "codeforces-" ++ parseCodeforcesProblemId u) ∧
    (∀ u v : String, parseCodeforcesProblemId u = parseCodeforcesProblemId v →
      parseCodeforcesId u = parseCodeforcesId v) ∧
    parseCodeforcesId "https://codeforces.com/problemset/problem/158/A" = "codeforces-158A" ∧
    parseCodeforcesProblemId "https://codeforces.com/problemset/problem/158/A" = "158A" ∧
    parseCodeforcesPlatform = Platform.codeforces := by
  refine ⟨fun u => rfl, fun u v h => ?_, by decide, by decide, rfl⟩
  unfold parseCodeforcesId
  rw [h]

/-- Witness for C1: two distinct URLs carrying the same problem id receive
the same record id. -/
theorem claim_C1_codeforces_id_witness :
    parseCodeforcesId "https://codeforces.com/problemset/problem/158/A" =
      parseCodeforcesId "https://codeforces.com/problemset/problem/158/A?locale=ru" :=
  claim_C1_codeforces_id.2.1 _ _ (by decide)

/-- C2 counterexample: `parseCodeforces` performs network I/O first on every
URL; on `https://codeforces.com/` — which does not match the Codeforces
problem-id pattern (the extracted id is empty) — it still fetches instead of
failing with an invalid-URL error. -/
theorem claim_C2_counterexample :
    parseCodeforcesProblemId "https://codeforces.com/" = "" ∧
    parseCodeforcesFirstAction "https://codeforces.com/" = FirstAction.network ∧
    parseCodeforcesFirstAction "https://codeforces.com/" ≠
      FirstAction.fail ExtractErr.invalidUrl := by decide

/-- C2 (amended): only the AtCoder and LeetCode extractors validate the URL
pattern and fail with an invalid-URL error before any network I/O (in
particular an AtCoder-style URL missing the `/tasks/` segment is rejected
with zero network calls); the Codeforces and CodeChef extractors begin
network I/O on every URL without a prior format check. -/
theorem claim_C2_url_check_amended :
    (∀ u : String, atcoderUrlMatch u = none →
        parseAtcoderFirstAction u = FirstAction.fail ExtractErr.invalidUrl) ∧
    (∀ u : String, atcoderUrlMatch u ≠ none →
        parseAtcoderFirstAction u = FirstAction.network) ∧
    parseAtcoderFirstAction "https://atcoder.jp/contests/abc123/abc123_a" =
      FirstAction.fail ExtractErr.invalidUrl ∧
    (∀ u : String, slugFind (leetcodeNormalize u).data = none →
        parseLeetcodeFirstAction u = FirstAction.fail ExtractErr.invalidUrl) ∧
    (∀ u : String, parseCodeforcesFirstAction u = FirstAction.network) ∧
    (∀ u : String, parseCodechefFirstAction u = FirstAction.network) := by
  refine ⟨?_, ?_, by decide, ?_, fun u => rfl, fun u => rfl⟩
  · intro u h
    simp [parseAtcoderFirstAction, h]
  · intro u h
    simp only [parseAtcoderFirstAction]
    rw [if_pos (Option.isSome_iff_ne_none.mpr h)]
  · intro u h
    simp [parseLeetcodeFirstAction, h]

/-- Witness for C2 (amended): the conjuncts instantiated at concrete URLs. -/
theorem claim_C2_url_check_amended_witness :
    parseAtcoderFirstAction "https://atcoder.jp/" = FirstAction.fail ExtractErr.invalidUrl ∧
    parseAtcoderFirstAction "https://atcoder.jp/contests/abc123/tasks/abc123_a" =
      FirstAction.network ∧
    parseLeetcodeFirstAction "https://leetcode.com/problemset/" =
      FirstAction.fail ExtractErr.invalidUrl ∧
    parseCodeforcesFirstAction "https://codeforces.com/x" = FirstAction.network :=
  ⟨claim_C2_url_check_amended.1 _ (by decide),
   claim_C2_url_check_amended.2.1 _ (by decide),
   claim_C2_url_check_amended.2.2.2.1 _ (by decide),
   claim_C2_url_check_amended.2.2.2.2.1 _⟩

/-- C3 counterexample: the AtCoder extractor has no "content extraction
failed" path — with nothing recovered (empty title and empty description
after the full cascade) it returns a record with a synthetic title and empty
description instead of failing. -/
theorem claim_C3_counterexample :
    parseAtcoderAssemble "https://atcoder.jp/contests/abc999/tasks/abc999_a" "abc999"
        "abc999_a" "" "" [] "" [] =
      Except.ok
        { id := "atcoder-abc999-abc999_a", platform := Platform.atcoder,
          problemId := "abc999-abc999_a", title := "AtCoder Problem abc999_a",
          description := "", sampleTests := [], difficulty := "", tags := [],
          url := "https://atcoder.jp/contests/abc999/tasks/abc999_a" } ∧
    parseAtcoderAssemble "https://atcoder.jp/contests/abc999/tasks/abc999_a" "abc999"
        "abc999_a" "" "" [] "" [] ≠
      Except.error ExtractErr.extractionFailed := by decide

/-- C3 (amended): the Codeforces and CodeChef extractors fail with a
content-extraction error when nothing was recovered (Codeforces when the
`.problem-statement` container is absent, CodeChef when both title and
description are empty), and no extractor ever returns a record with an empty
title (each falls back to a non-empty placeholder), so no empty shell with
both title and description empty is ever returned; the AtCoder extractor,
however, returns such a placeholder record instead of failing. -/
theorem claim_C3_empty_content_amended :
    (∀ url t1 t2 t3 d1 d2 ps sb tg,
        parseCodeforcesExtract url false t1 t2 t3 d1 d2 ps sb tg =
          Except.error ExtractErr.extractionFailed) ∧
    (∀ url samples diff tags,
        parseCodechefExtract url "" "" samples diff tags =
          Except.error ExtractErr.extractionFailed) ∧
    (∀ url psFound t1 t2 t3 d1 d2 ps sb tg r,
        parseCodeforcesExtract url psFound t1 t2 t3 d1 d2 ps sb tg = Except.ok r →
          r.title ≠ "") ∧
    (∀ url title desc samples diff tags r,
        parseCodechefExtract url title desc samples diff tags = Except.ok r →
          r.title ≠ "") ∧
    (∀ url cid tid title desc samples diff tags r,
        parseAtcoderAssemble url cid tid title desc samples diff tags = Except.ok r →
          r.title ≠ "") := by
  refine ⟨fun _ _ _ _ _ _ _ _ _ => rfl, fun url samples diff tags => ?_, ?_, ?_, ?_⟩
  · unfold parseCodechefExtract
    rw [if_pos ⟨rfl, rfl⟩]
  · intro url psFound t1 t2 t3 d1 d2 ps sb tg r h
    cases psFound with
    | false => simp [parseCodeforcesExtract] at h
    | true =>
      simp only [parseCodeforcesExtract, Bool.not_true, Bool.false_eq_true, if_false,
        Except.ok.injEq] at h
      rw [← h]
      exact jsOr_ne_empty _ _ (by decide)
  · intro url title desc samples diff tags r h
    unfold parseCodechefExtract at h
    split at h
    · exact absurd h (by simp)
    · split at h
      · exact absurd h (by simp)
      · simp only [Except.ok.injEq] at h
        rw [← h]
        exact jsOr_ne_empty _ _ (append_left_ne_empty _ _ (by decide))
  · intro url cid tid title desc samples diff tags r h
    simp only [parseAtcoderAssemble, Except.ok.injEq] at h
    rw [← h]
    exact jsOr_ne_empty _ _ (append_left_ne_empty _ _ (by decide))

/-- Witness for C3 (amended): the conjuncts instantiated at concrete pages. -/
theorem claim_C3_empty_content_amended_witness :
    parseCodeforcesExtract "u" false "" "" "" "" "" "" [] [] =
      Except.error ExtractErr.extractionFailed ∧
    parseCodechefExtract "u" "" "" [] "" [] = Except.error ExtractErr.extractionFailed ∧
    ({ id := "codeforces-", platform := Platform.codeforces, problemId := "",
       title := "T", description := "D", sampleTests := [], difficulty := "",
       tags := [], url := "x" } : ProblemRecord).title ≠ "" :=
  ⟨claim_C3_empty_content_amended.1 "u" "" "" "" "" "" "" [] [],
   claim_C3_empty_content_amended.2.1 "u" [] "" [],
   claim_C3_empty_content_amended.2.2.1 "x" true "T" "" "" "D" "" "" [] [] _ (by decide)⟩

/-- C4 counterexample: the CodeChef extractor's section strategy stores
whatever the first two `pre` blocks contain with no emptiness check — a
section with two empty `pre` blocks produces a stored record whose sample
pair has empty input and empty output. -/
theorem claim_C4_counterexample :
    parseCodechefSamples [["", ""]] [] = [{ input := "", output := "" }] ∧
    parseCodechefExtract "https://www.codechef.com/problems/TEST" "Sum" "desc"
        (parseCodechefSamples [["", ""]] []) "" [] =
      Except.ok
        { id := "codechef-TEST", platform := Platform.codechef, problemId := "TEST",
          title := "Sum", description := "desc",
          sampleTests := [{ input := "", output := "" }], difficulty := "", tags := [],
          url := "https://www.codechef.com/problems/TEST" } := by decide

/-- C4 (amended): the Codeforces extractor discards any pair with an empty
half before the record is assembled — every stored pair has non-empty input
and output — and for a fragment of N well-formed pairs it recovers exactly
the N trimmed pairs in source order; the CodeChef extractor's section
strategy, however, stores the first two `pre` texts of each matching section
without the emptiness check. -/
theorem claim_C4_sample_nonempty_amended :
    (∀ blocks : List (String × String), ∀ p ∈ cfExtractSamples blocks,
        p.input ≠ "" ∧ p.output ≠ "") ∧
    (∀ blocks : List (String × String),
        (∀ b ∈ blocks, jsTrim b.1 ≠ "" ∧ jsTrim b.2 ≠ "") →
        cfExtractSamples blocks =
          blocks.map (fun b => { input := jsTrim b.1, output := jsTrim b.2 })) ∧
    (∀ sections : List (List String), ∀ pres ∈ sections, pres.length ≥ 2 →
        ∃ p ∈ ccSectionSamples sections, p.input = jsTrim (pres.headI) ) := by
  refine ⟨?_, ?_, ?_⟩
  · intro blocks p hp
    rcases List.mem_filterMap.mp hp with ⟨b, _, hfb⟩
    by_cases hc : jsTrim b.1 ≠ "" ∧ jsTrim b.2 ≠ ""
    · simp only [if_pos hc, Option.some.injEq] at hfb
      rw [← hfb]
      exact hc
    · simp only [if_neg hc] at hfb
      cases hfb
  · intro blocks h
    induction blocks with
    | nil => rfl
    | cons b bs ih =>
      have hb := h b (by simp)
      unfold cfExtractSamples
      rw [List.filterMap_cons]
      simp only [if_pos hb, List.map_cons]
      have := ih (fun x hx => h x (by simp [hx]))
      unfold cfExtractSamples at this
      rw [this]
  · intro sections pres hmem hlen
    cases pres with
    | nil => simp at hlen
    | cons p0 rest =>
      cases rest with
      | nil => simp at hlen
      | cons p1 rest' =>
        refine ⟨{ input := jsTrim p0, output := jsTrim p1 }, ?_, by simp [List.headI]⟩
        unfold ccSectionSamples
        exact List.mem_filterMap.mpr ⟨p0 :: p1 :: rest', hmem, rfl⟩

/-- Witness for C4 (amended): the conjuncts instantiated at a concrete
fragment with two well-formed pairs. -/
theorem claim_C4_sample_nonempty_amended_witness :
    (∀ p ∈ cfExtractSamples [("1 2", "3"), ("4", "5")], p.input ≠ "" ∧ p.output ≠ "") ∧
    cfExtractSamples [("1 2", "3"), ("4", "5")] =
      [{ input := "1 2", output := "3" }, { input := "4", output := "5" }] := by
  constructor
  · exact claim_C4_sample_nonempty_amended.1 [("1 2", "3"), ("4", "5")]
  · have h := claim_C4_sample_nonempty_amended.2.1 [("1 2", "3"), ("4", "5")] (by decide)
    rw [h]
    decide

/-- C6 counterexample: `detectPlatform` matches the domain substrings
against the whole URL, not the hostname — a URL whose hostname is
`example.com` but whose query mentions `codeforces.com` is classified as
Codeforces, while hostname-only matching (the spec's description) yields
none. -/
theorem claim_C6_counterexample :
    detectPlatform "https://example.com/a?ref=codeforces.com" = some Platform.codeforces ∧
    specHostnameDetect "https://example.com/a?ref=codeforces.com" = none := by decide

/-- C6 (amended): `detectPlatform` classifies a URL by substring matching of
the four known domains against the whole URL string (not the hostname
alone), in the fixed order codeforces, leetcode, atcoder, codechef; dispatch
(`parseProblem`) fails with an "unsupported platform" error, invoking no
extractor, exactly when `detectPlatform` returns none, and invokes platform
`p`'s extractor exactly when it returns `p`. -/
theorem claim_C6_detect_dispatch_amended :
    (∀ u : String, parseProblemDispatch u = DispatchOutcome.unsupportedError ↔
        detectPlatform u = none) ∧
    (∀ u : String, ∀ p : Platform, parseProblemDispatch u = DispatchOutcome.invoke p ↔
        detectPlatform u = some p) ∧
    (∀ u : String, detectPlatform u = none ↔
        (strIncludes u "codeforces.com" = false ∧ strIncludes u "leetcode.com" = false ∧
         strIncludes u "atcoder.jp" = false ∧ strIncludes u "codechef.com" = false)) ∧
    (∀ u : String, strIncludes u "codeforces.com" = true →
        detectPlatform u = some Platform.codeforces) := by
  refine ⟨?_, ?_, ?_, ?_⟩
  · intro u
    unfold parseProblemDispatch
    cases hd : detectPlatform u <;> simp
  · intro u p
    unfold parseProblemDispatch
    cases hd : detectPlatform u <;> simp
  · intro u
    unfold detectPlatform
    by_cases h1 : strIncludes u "codeforces.com" = true
    · simp [h1]
    · by_cases h2 : strIncludes u "leetcode.com" = true
      · simp [h1, h2]
      · by_cases h3 : strIncludes u "atcoder.jp" = true
        · simp [h1, h2, h3]
        · by_cases h4 : strIncludes u "codechef.com" = true
          · simp [h1, h2, h3, h4]
          · simp [h1, h2, h3, h4]
  · intro u h
    unfold detectPlatform
    rw [if_pos h]

/-- Witness for C6 (amended): the conjuncts instantiated at concrete URLs. -/
theorem claim_C6_detect_dispatch_amended_witness :
    (parseProblemDispatch "https://gitlab.com/x" = DispatchOutcome.unsupportedError ↔
      detectPlatform "https://gitlab.com/x" = none) ∧
    detectPlatform "https://codeforces.com/problemset/problem/1/A" =
      some Platform.codeforces :=
  ⟨claim_C6_detect_dispatch_amended.1 _,
   claim_C6_detect_dispatch_amended.2.2.2 _ (by decide)⟩

/-- C7: canonicalization strips the redundant LeetCode `/description/` path
segment — both URL forms canonicalize to the same string. -/
theorem claim_C7_description_strip :
    normalizeUrl "https://leetcode.com/problems/two-sum/description/" =
      normalizeUrl "https://leetcode.com/problems/two-sum/" ∧
    normalizeUrl "https://leetcode.com/problems/two-sum/description/" =
      "https://leetcode.com/problems/two-sum" := by decide

/-- C8 counterexample: normalized text can still contain a triple-dollar
sequence — an unmatched `$$$` run (here at the end of the input, with no
closing delimiter) survives `cleanLatexText` unchanged. -/
theorem claim_C8_counterexample :
    cleanLatexText "x$$$" = "x$$$" ∧
    hasSubL "$$$".data (cleanLatexText "x$$$").data = true := by decide

/-- C8 (amended): `cleanLatexText` rewrites each well-formed
`$$$content$$$` segment (content non-empty and containing no `$`) to the
same content delimited by single dollars, so inputs all of whose
triple-dollar runs delimit such segments contain no triple-dollar sequence
after cleanup; an unmatched triple-dollar run, however, survives into the
output. -/
theorem claim_C8_triple_dollar_amended :
    (∀ a b c : List Char, (∀ x ∈ a, ¬ x = '$') → (∀ x ∈ b, ¬ x = '$') → b ≠ [] →
        replTriple (a ++ (['$', '$', '$'] ++ (b ++ (['$', '$', '$'] ++ c)))) =
          a ++ '$' :: (b ++ '$' :: replTriple c)) ∧
    cleanLatexText "Let $$$n$$$ be even: $$$n = 2 k$$$." = "Let $n$ be even: $n = 2 k$." ∧
    hasSubL "$$$".data (cleanLatexText "Let $$$n$$$ be even: $$$n = 2 k$$$.").data = false := by
  exact ⟨fun a b c ha hb hbne => replTriple_wf a b c ha hb hbne, by decide, by decide⟩

/-- Witness for C8 (amended): the rewrite equation instantiated at concrete
character lists. -/
theorem claim_C8_triple_dollar_amended_witness :
    replTriple (['a', ' '] ++ (['$', '$', '$'] ++ (['n'] ++ (['$', '$', '$'] ++ ['!'])))) =
      ['a', ' '] ++ '$' :: (['n'] ++ '$' :: replTriple ['!']) :=
  claim_C8_triple_dollar_amended.1 ['a', ' '] ['n'] ['!'] (by decide) (by decide) (by decide)

/-- C9: the session manager maintains at most one live browser process in
any interleaving of events, and a caller whose synchronous prologue runs
while a launch is in flight awaits that same memoized launch — the state is
unchanged and no second launch is started. -/
theorem claim_C9_single_browser :
    (∀ evs : List BMEvent, bmLive (bmRun bmInit evs) ≤ 1) ∧
    (∀ s : BMState, s.launching = true →
        bmStep s BMEvent.acquire = (s, some AcqResult.awaitedExisting)) := by
  constructor
  · intro evs
    refine bmInv_live_le_one _ (bmRun_inv evs bmInit ?_)
    intro hc
    simp [bmInit] at hc
  · intro s hl
    simp [bmStep, hl]

/-- Witness for C9: a concrete interleaving with overlapping acquisitions,
and the acquire step applied to a concrete launching state. -/
theorem claim_C9_single_browser_witness :
    bmLive (bmRun bmInit [BMEvent.acquire, BMEvent.acquire, BMEvent.launchDone,
      BMEvent.acquire]) ≤ 1 ∧
    bmStep { browser := false, launching := true, launchesStarted := 1 } BMEvent.acquire =
      ({ browser := false, launching := true, launchesStarted := 1 },
        some AcqResult.awaitedExisting) :=
  ⟨claim_C9_single_browser.1 _, claim_C9_single_browser.2 _ rfl⟩

/-- C10: `withBrowserContext` closes the context it acquired in all cases —
for every callback outcome, including a thrown error, the acquired context
is no longer open afterwards and no other context was opened — and the
callback's result or error is propagated to the caller unchanged. -/
theorem claim_C10_context_closed :
    ∀ (E A : Type) (fn : Nat → Except E A) (st : CtxState),
      (withBrowserContext fn st).2 = fn st.nextId ∧
      st.nextId ∉ ((withBrowserContext fn st).1).openCtxs ∧
      (∀ x ∈ ((withBrowserContext fn st).1).openCtxs, x ∈ st.openCtxs) := by
  intro E A fn st
  refine ⟨rfl, ?_, ?_⟩
  · intro hmem
    simp only [withBrowserContext, createContext, tryFinallyClose, closeContext,
      List.mem_filter] at hmem
    simp at hmem
  · intro x hx
    simp only [withBrowserContext, createContext, tryFinallyClose, closeContext,
      List.mem_filter] at hx
    rcases hx with ⟨hmem, hne⟩
    rcases List.mem_cons.mp hmem with rfl | h
    · simp at hne
    · exact h

/-- Witness for C10: a callback that throws, run on a concrete state; the
error propagates, the acquired context 0 is closed, and the pre-existing
context 7 is untouched. -/
theorem claim_C10_context_closed_witness :
    (withBrowserContext (fun _ => (Except.error "boom" : Except String Nat))
        { nextId := 0, openCtxs := [7] }).2 = Except.error "boom" ∧
    0 ∉ ((withBrowserContext (fun _ => (Except.error "boom" : Except String Nat))
        { nextId := 0, openCtxs := [7] }).1).openCtxs ∧
    7 ∈ [7] :=
  ⟨(claim_C10_context_closed String Nat _ _).1,
   (claim_C10_context_closed String Nat _ _).2.1,
   (claim_C10_context_closed String Nat (fun _ => Except.error "boom")
      { nextId := 0, openCtxs := [7] }).2.2 7 (by decide)⟩

end GitSub
